import Mathlib

/-!
Verification development for the AES-ECB packet cipher of the vnt tunnel
(`src/vnt/src/cipher/aes_ecb.rs`).  The cipher transforms an in-place
tunneled packet between plaintext and an encrypted, optionally
authenticated, on-wire form.

Machine bytes are modelled as `Nat`; byte buffers as `List Nat`.  The packet
container (`NetPacket`), the secret-body codec (`AesCbcSecretBody`), the
keyed fingerprint (`Finger`) and the external AES/PKCS7 primitives are not
part of the translated source file; they are modelled from the specification
at their interface boundary, as noted on each definition.
-/

/-- Length of the tunnel packet header (`HEAD_LEN` in `protocol/mod.rs`). -/
def HEAD_LEN : Nat := 12

/-- Error outcomes of `encrypt_ipv4` / `decrypt_ipv4`.  In the source these are
`io::Error` values distinguished by message ("not encrypt", "data err",
"finger err", "解密失败", "加密失败", body-layout errors, length errors). -/
inductive CipherErr where
  | notEncrypted
  | malformedPacket
  | malformedBody
  | integrityFailure
  | decryptFailure
  | encryptFailure
  | lengthExceedsCapacity
deriving DecidableEq, Repr

/-- Modelled from the spec: the keyed fingerprint collaborator (`Finger`).
`hash` is the fixed keyed hash value stored in the `Finger` (read by
`finger.hash[0..4]` in the source); `calcFinger` is
`calculate_finger(context12, data)`, a deterministic keyed function whose
result is the 12-byte tag. -/
structure Finger where
  hash : List Nat
  calcFinger : List Nat → List Nat → List Nat

/-- Well-formedness of an optional fingerprint function: `calculate_finger`
returns a 12-byte value (its Rust return type is `[u8; 12]`). -/
def FingerOptWF : Option Finger → Prop
  | none => True
  | some f => ∀ x y, (f.calcFinger x y).length = 12

/-- The key variant (`AesEcbEnum` in the source): AES-128 or AES-256 key. -/
inductive AesEcbEnum where
  | AES128ECB (key : List Nat)
  | AES256ECB (key : List Nat)

/-- The packet cipher (`AesEcbCipher` in the source): a key variant and an
optional keyed fingerprint. -/
structure AesEcbCipher where
  cipher : AesEcbEnum
  finger : Option Finger

/-- Modelled from the spec: the external AES block-cipher primitive
(crates `aes`/`ecb`), a keyed block encryption/decryption function per key
variant.  `enc128 key block` is one AES-128 block encryption, etc. -/
structure AesLib where
  enc128 : List Nat → List Nat → List Nat
  dec128 : List Nat → List Nat → List Nat
  enc256 : List Nat → List Nat → List Nat
  dec256 : List Nat → List Nat → List Nat

/-- Block-encryption function selected by the key variant
(the `match &self.cipher` dispatch in the source). -/
def encFun (lib : AesLib) : AesEcbEnum → List Nat → List Nat
  | .AES128ECB key => lib.enc128 key
  | .AES256ECB key => lib.enc256 key

/-- Block-decryption function selected by the key variant. -/
def decFun (lib : AesLib) : AesEcbEnum → List Nat → List Nat
  | .AES128ECB key => lib.dec128 key
  | .AES256ECB key => lib.dec256 key

/-- A pair of block functions is good when both preserve the 16-byte block
length and decryption inverts encryption (the defining property of the
external AES primitive). -/
def BlockFunGood (e d : List Nat → List Nat) : Prop :=
  ∀ b : List Nat, b.length = 16 →
    (e b).length = 16 ∧ (d b).length = 16 ∧ d (e b) = b

/-- A good AES library: every key yields good block functions, for both
variants. -/
def AesLib.Good (lib : AesLib) : Prop :=
  ∀ key : List Nat,
    BlockFunGood (lib.enc128 key) (lib.dec128 key) ∧
    BlockFunGood (lib.enc256 key) (lib.dec256 key)

/-- Modelled from the spec: the tunnel packet container (`NetPacket`),
at its interface boundary of §6: read-only header accessors, the encrypted
flag, a body buffer of fixed capacity following the 12-byte header, and a
declared total length `dataLen`. -/
structure NetPacket where
  source : List Nat
  destination : List Nat
  protocol : Nat
  transport_protocol : Nat
  is_gateway : Bool
  source_ttl : Nat
  encryptFlag : Bool
  body : List Nat
  dataLen : Nat
deriving DecidableEq, Repr

/-- `net_packet.payload()`: the bytes after the header, up to the declared
length. -/
def NetPacket.payload (p : NetPacket) : List Nat :=
  p.body.take (p.dataLen - HEAD_LEN)

/-- Modelled from the spec: `set_data_len(n)` fails with
`LengthExceedsCapacity` when `n` exceeds the buffer capacity. -/
def NetPacket.setDataLen (p : NetPacket) (n : Nat) : Option NetPacket :=
  if n ≤ HEAD_LEN + p.body.length then some { p with dataLen := n } else none

/-- `set_data_len_max()`: declare the whole buffer capacity as length. -/
def NetPacket.setDataLenMax (p : NetPacket) : NetPacket :=
  { p with dataLen := HEAD_LEN + p.body.length }

/-- Write bytes through the mutable payload view, starting at the payload's
first byte (the payload is the prefix of `body`). -/
def NetPacket.writePayloadBytes (p : NetPacket) (new : List Nat) : NetPacket :=
  { p with body := new ++ p.body.drop new.length }

/-- The big-endian bytes of a 32-bit value (`u32::to_be_bytes`). -/
def u32be (r : Nat) : List Nat :=
  [r / 2 ^ 24 % 256, r / 2 ^ 16 % 256, r / 2 ^ 8 % 256, r % 256]

/-- Length of the trailing authentication-tag region: 12 bytes when a
fingerprint is configured, otherwise 0. -/
def fingerLenOf (existFinger : Bool) : Nat := if existFinger then 12 else 0

/-- Modelled from the spec: validity check of `AesCbcSecretBody::new` —
fails if the tag is present and the buffer is shorter than 12 bytes, or if
the resulting encryption region would be empty. -/
def secretBodyOk (pl : List Nat) (existFinger : Bool) : Bool :=
  decide (fingerLenOf existFinger < pl.length)

/-- `en_body()`: the encryption region — the payload minus the trailing tag
region. -/
def enBody (pl : List Nat) (existFinger : Bool) : List Nat :=
  pl.take (pl.length - fingerLenOf existFinger)

/-- `finger()`: the stored 12-byte tag at the tail of the payload. -/
def storedFinger (pl : List Nat) : List Nat :=
  pl.drop (pl.length - 12)

/-- `set_random(r)`: write the 4 nonce bytes into the last 4 bytes of the
pre-encryption plaintext region (the tail of the future encryption
region). -/
def setRandom (pl : List Nat) (existFinger : Bool) (nonce : List Nat) : List Nat :=
  pl.take (pl.length - fingerLenOf existFinger - 4) ++ nonce ++
    pl.drop (pl.length - fingerLenOf existFinger - 4 + 4)

/-- `set_finger(tag)`: overwrite the trailing 12-byte tag region. -/
def setFingerBytes (pl : List Nat) (tag : List Nat) : List Nat :=
  pl.take (pl.length - 12) ++ tag

/-- Modelled from the spec: PKCS7 pad length — 1 to 16 bytes, always
positive, reaching the next multiple of the block size. -/
def pkcs7PadLen (n : Nat) : Nat := 16 - n % 16

/-- Modelled from the spec: PKCS7 padding — append `padLen` bytes each of
value `padLen`. -/
def pkcs7Pad (msg : List Nat) : List Nat :=
  msg ++ List.replicate (pkcs7PadLen msg.length) (pkcs7PadLen msg.length)

/-- Modelled from the spec: PKCS7 unpadding — the last byte gives the pad
length, which must be between 1 and 16 and replicated over the tail;
otherwise the padding is invalid. -/
def pkcs7Unpad (data : List Nat) : Option (List Nat) :=
  match data.getLast? with
  | none => none
  | some n =>
    if 1 ≤ n ∧ n ≤ 16 ∧ n ≤ data.length ∧
        (data.drop (data.length - n)).all (fun x => x = n) then
      some (data.take (data.length - n))
    else none

/-- ECB mode, block by block: apply the block function to the first `k`
consecutive 16-byte blocks. -/
def ecbBlocks (f : List Nat → List Nat) : Nat → List Nat → List Nat
  | 0, _ => []
  | k + 1, l => f (l.take 16) ++ ecbBlocks f k (l.drop 16)

/-- ECB mode: apply the block function to each consecutive 16-byte block. -/
def ecbMap (f : List Nat → List Nat) (l : List Nat) : List Nat :=
  ecbBlocks f ((l.length + 15) / 16) l

/-- Modelled from the spec: `encrypt_padded_mut::<Pkcs7>(buf, msgLen)` —
PKCS7-pad the message `buf.take msgLen` and block-encrypt it in place;
fails when the buffer cannot hold the padded message. Returns the
ciphertext. -/
def encryptPadded (encB : List Nat → List Nat) (buf : List Nat) (msgLen : Nat) :
    Option (List Nat) :=
  let padded := pkcs7Pad (buf.take msgLen)
  if padded.length ≤ buf.length then some (ecbMap encB padded) else none

/-- Modelled from the spec: `decrypt_padded_mut::<Pkcs7>(buf)` — fails when
the length is not a multiple of the block size (buffer untouched);
otherwise block-decrypts in place and then unpads.  The second component is
the buffer content after the call: on an unpadding failure the buffer has
already been decrypted in place. -/
def decryptPadded (decB : List Nat → List Nat) (buf : List Nat) :
    Option (List Nat) × List Nat :=
  if buf.length % 16 = 0 then
    let dec := ecbMap decB buf
    (pkcs7Unpad dec, dec)
  else (none, buf)

/-- The header-derived 12-byte prefix of the context vector
(lines 60–66 / 106–112 of the source): source address, destination address,
protocol, transport protocol, gateway flag, source TTL. -/
def ivBase (p : NetPacket) : List Nat :=
  p.source ++ p.destination ++
    [p.protocol, p.transport_protocol, if p.is_gateway then 1 else 0, p.source_ttl]

/-- The full 16-byte context vector `iv`: zero-initialised, the header
prefix written into bytes 0..12, and — only when a fingerprint is
configured — `finger.hash[0..4]` written into bytes 12..16. -/
def buildIV (finger : Option Finger) (p : NetPacket) : List Nat :=
  ivBase p ++ (match finger with
    | some f => f.hash.take 4
    | none => [0, 0, 0, 0])

/-- Result of one cipher call: an optional error together with the packet
state at return (mutations performed before a failure are visible). -/
structure RunResult where
  err : Option CipherErr
  packet : NetPacket
deriving DecidableEq, Repr

/-- Translation of `AesEcbCipher::decrypt_ipv4` (lines 48–98 of the
source).  Mirrors the source step for step: reject when not marked
encrypted; reject payloads shorter than 16 bytes; build the context vector;
construct the secret-body view; when a fingerprint is configured, verify the
stored tag before decrypting; run the in-place padded ECB decryption; on
success clear the encrypted flag and shrink the declared length by the
4-byte trailing nonce. -/
def decrypt_ipv4 (lib : AesLib) (c : AesEcbCipher) (p : NetPacket) : RunResult :=
  if p.encryptFlag = false then ⟨some .notEncrypted, p⟩
  else if p.payload.length < 16 then ⟨some .malformedPacket, p⟩
  else
    let iv := buildIV c.finger p
    let ef := c.finger.isSome
    let pl := p.payload
    if secretBodyOk pl ef = false then ⟨some .malformedBody, p⟩
    else
      let pass : Bool := match c.finger with
        | some f => decide (f.calcFinger (iv.take 12) (enBody pl ef) = storedFinger pl)
        | none => true
      if pass = false then ⟨some .integrityFailure, p⟩
      else
        let r := decryptPadded (decFun lib c.cipher) (enBody pl ef)
        let p1 := p.writePayloadBytes r.2
        match r.1 with
        | none => ⟨some .decryptFailure, p1⟩
        | some m =>
          let p2 := { p1 with encryptFlag := false }
          match p2.setDataLen (HEAD_LEN + m.length - 4) with
          | none => ⟨some .lengthExceedsCapacity, p2⟩
          | some p3 => ⟨none, p3⟩

/-- Translation of `AesEcbCipher::encrypt_ipv4` (lines 101–153 of the
source).  Mirrors the source step for step: build the context vector; grow
the declared length by 16 (nonce + tag) or 4 (nonce only); construct the
secret-body view and write the random nonce; remember the plaintext length,
declare the maximum length, and run the in-place padded ECB encryption over
the payload; when a fingerprint is configured, compute the tag over
`(iv[..12], ciphertext)`, set the final length to header + ciphertext + tag
and store the tag, otherwise set the final length to header + ciphertext;
finally set the encrypted flag.  `rand` models the fresh value drawn from
`rand::thread_rng().next_u32()`. -/
def encrypt_ipv4 (lib : AesLib) (c : AesEcbCipher) (rand : Nat) (p : NetPacket) :
    RunResult :=
  let data_len := p.dataLen
  let iv := buildIV c.finger p
  let grow := if c.finger.isSome then 16 else 4
  match p.setDataLen (data_len + grow) with
  | none => ⟨some .lengthExceedsCapacity, p⟩
  | some p1 =>
    let ef := c.finger.isSome
    if secretBodyOk p1.payload ef = false then ⟨some .malformedBody, p1⟩
    else
      let pl2 := setRandom p1.payload ef (u32be rand)
      let p2 := p1.writePayloadBytes pl2
      let pLen := (enBody pl2 ef).length
      let p3 := p2.setDataLenMax
      match encryptPadded (encFun lib c.cipher) p3.payload pLen with
      | none => ⟨some .encryptFailure, p3⟩
      | some buf =>
        let p4 := p3.writePayloadBytes buf
        match c.finger with
        | some f =>
          let tag := f.calcFinger (iv.take 12) buf
          match p4.setDataLen (HEAD_LEN + buf.length + tag.length) with
          | none => ⟨some .lengthExceedsCapacity, p4⟩
          | some p5 =>
            if secretBodyOk p5.payload true = false then ⟨some .malformedBody, p5⟩
            else
              let p6 := p5.writePayloadBytes (setFingerBytes p5.payload tag)
              ⟨none, { p6 with encryptFlag := true }⟩
        | none =>
          match p4.setDataLen (HEAD_LEN + buf.length) with
          | none => ⟨some .lengthExceedsCapacity, p4⟩
          | some p5 => ⟨none, { p5 with encryptFlag := true }⟩

/-- A concrete AES library whose block functions are the identity, used to
instantiate theorems at executable inputs. -/
def idLib : AesLib :=
  ⟨fun _ b => b, fun _ b => b, fun _ b => b, fun _ b => b⟩

/-- A concrete AES library whose AES-128 decryption maps every block to 16
zero bytes (its other functions are the identity). -/
def zeroDecLib : AesLib :=
  ⟨fun _ b => b, fun _ _ => List.replicate 16 0, fun _ b => b, fun _ b => b⟩

/-- A concrete fingerprint whose stored hash is all zeros and whose keyed
function echoes the 12-byte context prefix. -/
def fingerEcho : Finger := ⟨[0, 0, 0, 0], fun pre _ => pre⟩

/-- A concrete fingerprint with constant keyed output. -/
def fingerConst : Finger := ⟨List.replicate 32 9, fun _ _ => List.replicate 12 3⟩

/-- A concrete packet with fixed header fields, used to instantiate theorems
at executable inputs. -/
def basePacket (flag : Bool) (body : List Nat) (dlen : Nat) : NetPacket :=
  { source := [10, 0, 0, 1], destination := [10, 0, 0, 2], protocol := 6,
    transport_protocol := 1, is_gateway := false, source_ttl := 64,
    encryptFlag := flag, body := body, dataLen := dlen }

/-- Rounding up to the next multiple of the AES block size. -/
def roundUp16 (x : Nat) : Nat := 16 * ((x + 15) / 16)

/-- The statement of claim C1 as written: the last 4 bytes of the context
vector are the fingerprint function's keyed output computed over the first
12 bytes of the same vector. -/
def C1Claim : Prop :=
  ∀ (c : AesEcbCipher) (f : Finger) (p : NetPacket), c.finger = some f →
    p.source.length = 4 → p.destination.length = 4 →
    (buildIV c.finger p).drop 12
      = (f.calcFinger ((buildIV c.finger p).take 12) []).take 4

/-- The statement of claim C8 as written: whenever decrypt returns an error
of any kind, the packet is unchanged. -/
def C8Claim : Prop :=
  ∀ (lib : AesLib) (c : AesEcbCipher) (p : NetPacket) (e : CipherErr),
    (decrypt_ipv4 lib c p).err = some e → (decrypt_ipv4 lib c p).packet = p

/-- The plaintext fed to the block cipher on encrypt: the original payload
followed by the 4 random nonce bytes. -/
def encMsg (p : NetPacket) (rand : Nat) (orig : Nat) : List Nat :=
  p.body.take orig ++ u32be rand

/-- The ciphertext length produced by encrypt for an original payload of
length `orig`: the PKCS7-padded length of `orig + 4` plaintext bytes. -/
def encM (orig : Nat) : Nat := orig + 4 + pkcs7PadLen (orig + 4)

/-- The ciphertext produced by encrypt. -/
def encBuf (lib : AesLib) (c : AesEcbCipher) (rand : Nat) (p : NetPacket)
    (orig : Nat) : List Nat :=
  ecbMap (encFun lib c.cipher) (pkcs7Pad (encMsg p rand orig))

/-- The authentication tag produced by encrypt (empty when no fingerprint
is configured). -/
def encTag (lib : AesLib) (c : AesEcbCipher) (rand : Nat) (p : NetPacket)
    (orig : Nat) : List Nat :=
  match c.finger with
  | some f => f.calcFinger ((buildIV c.finger p).take 12) (encBuf lib c rand p orig)
  | none => []

/-- The body buffer after the nonce has been written, before encryption. -/
def encBody2 (p : NetPacket) (ef : Bool) (nonce : List Nat) (orig : Nat) : List Nat :=
  setRandom (p.body.take (orig + 4 + fingerLenOf ef)) ef nonce ++
    p.body.drop (orig + 4 + fingerLenOf ef)

/-- The packet produced by a successful encrypt of a packet with original
payload length `orig`: ciphertext, then tag (when configured), then the
leftover buffer bytes; declared length grown to header + ciphertext + tag;
encrypted flag set. -/
def encResult (lib : AesLib) (c : AesEcbCipher) (rand : Nat) (p : NetPacket)
    (orig : Nat) : NetPacket :=
  { p with
    body := encBuf lib c rand p orig ++ encTag lib c rand p orig ++
      (encBody2 p c.finger.isSome (u32be rand) orig).drop
        (encM orig + fingerLenOf c.finger.isSome),
    dataLen := HEAD_LEN + encM orig + fingerLenOf c.finger.isSome,
    encryptFlag := true }

theorem pkcs7PadLen_pos (n : Nat) : 0 < pkcs7PadLen n := by
  unfold pkcs7PadLen; omega

theorem pkcs7PadLen_le (n : Nat) : pkcs7PadLen n ≤ 16 := by
  unfold pkcs7PadLen; omega

theorem pkcs7Pad_length (m : List Nat) :
    (pkcs7Pad m).length = m.length + pkcs7PadLen m.length := by
  simp [pkcs7Pad]

theorem pkcs7Pad_length_mod (m : List Nat) : (pkcs7Pad m).length % 16 = 0 := by
  rw [pkcs7Pad_length]; unfold pkcs7PadLen; omega

theorem pkcs7Unpad_pad (m : List Nat) : pkcs7Unpad (pkcs7Pad m) = some m := by
  have hk1 : 1 ≤ pkcs7PadLen m.length := pkcs7PadLen_pos _
  have hk16 : pkcs7PadLen m.length ≤ 16 := pkcs7PadLen_le _
  have hlen : (pkcs7Pad m).length = m.length + pkcs7PadLen m.length := pkcs7Pad_length m
  have hrep : List.replicate (pkcs7PadLen m.length) (pkcs7PadLen m.length)
      = List.replicate (pkcs7PadLen m.length - 1) (pkcs7PadLen m.length)
        ++ [pkcs7PadLen m.length] := by
    nth_rewrite 1 [show pkcs7PadLen m.length = (pkcs7PadLen m.length - 1) + 1 by omega]
    rw [List.replicate_succ']
  have hlast : (pkcs7Pad m).getLast? = some (pkcs7PadLen m.length) := by
    rw [pkcs7Pad, hrep, ← List.append_assoc, List.getLast?_concat]
  have hdrop : (pkcs7Pad m).drop ((pkcs7Pad m).length - pkcs7PadLen m.length)
      = List.replicate (pkcs7PadLen m.length) (pkcs7PadLen m.length) := by
    rw [hlen, pkcs7Pad, Nat.add_sub_cancel, List.drop_left']
    rfl
  have htake : (pkcs7Pad m).take ((pkcs7Pad m).length - pkcs7PadLen m.length) = m := by
    rw [hlen, pkcs7Pad, Nat.add_sub_cancel, List.take_left']
    rfl
  rw [pkcs7Unpad, hlast]
  simp only [hdrop, htake]
  rw [if_pos]
  refine ⟨hk1, hk16, by omega, ?_⟩
  simp only [List.all_eq_true]
  intro x hx
  simp [List.eq_of_mem_replicate hx]

theorem ecbMap_nil (f : List Nat → List Nat) : ecbMap f [] = [] := rfl

theorem ecbMap_block (f : List Nat → List Nat) {x y : List Nat} (h : x.length = 16) :
    ecbMap f (x ++ y) = f x ++ ecbMap f y := by
  unfold ecbMap
  rw [List.length_append, h]
  rw [show (16 + y.length + 15) / 16 = (y.length + 15) / 16 + 1 from by omega]
  rw [ecbBlocks, List.take_left' h, List.drop_left' h]

theorem ecbMap_length16 (f : List Nat → List Nat)
    (hf : ∀ b : List Nat, b.length = 16 → (f b).length = 16) :
    ∀ (n : Nat) (l : List Nat), l.length = 16 * n → (ecbMap f l).length = l.length := by
  intro n
  induction n with
  | zero =>
    intro l hl
    have : l = [] := List.length_eq_zero.mp (by omega)
    subst this
    rw [ecbMap_nil]
  | succ k ih =>
    intro l hl
    have htl : (l.take 16).length = 16 := by
      rw [List.length_take]; omega
    have hdl : (l.drop 16).length = 16 * k := by
      rw [List.length_drop]; omega
    calc (ecbMap f l).length
        = (ecbMap f (l.take 16 ++ l.drop 16)).length := by
          rw [List.take_append_drop]
      _ = (f (l.take 16)).length + (ecbMap f (l.drop 16)).length := by
          rw [ecbMap_block f htl, List.length_append]
      _ = 16 + 16 * k := by rw [hf _ htl, ih _ hdl, hdl]
      _ = l.length := by omega

theorem ecbMap_inv (e d : List Nat → List Nat)
    (hed : ∀ b : List Nat, b.length = 16 → (e b).length = 16 ∧ d (e b) = b) :
    ∀ (n : Nat) (l : List Nat), l.length = 16 * n → ecbMap d (ecbMap e l) = l := by
  intro n
  induction n with
  | zero =>
    intro l hl
    have : l = [] := List.length_eq_zero.mp (by omega)
    subst this
    rw [ecbMap_nil, ecbMap_nil]
  | succ k ih =>
    intro l hl
    have htl : (l.take 16).length = 16 := by
      rw [List.length_take]; omega
    have hdl : (l.drop 16).length = 16 * k := by
      rw [List.length_drop]; omega
    calc ecbMap d (ecbMap e l)
        = ecbMap d (ecbMap e (l.take 16 ++ l.drop 16)) := by
          rw [List.take_append_drop]
      _ = ecbMap d (e (l.take 16) ++ ecbMap e (l.drop 16)) := by
          rw [ecbMap_block e htl]
      _ = d (e (l.take 16)) ++ ecbMap d (ecbMap e (l.drop 16)) := by
          rw [ecbMap_block d (hed _ htl).1]
      _ = l.take 16 ++ l.drop 16 := by rw [(hed _ htl).2, ih _ hdl]
      _ = l := List.take_append_drop 16 l

theorem ivBase_length (p : NetPacket) (hs : p.source.length = 4)
    (hd : p.destination.length = 4) : (ivBase p).length = 12 := by
  simp [ivBase, hs, hd]

theorem buildIV_take12 (fo : Option Finger) (p : NetPacket) (hs : p.source.length = 4)
    (hd : p.destination.length = 4) : (buildIV fo p).take 12 = ivBase p := by
  rw [buildIV.eq_def, List.take_left' (ivBase_length p hs hd)]

theorem buildIV_drop12 (fo : Option Finger) (p : NetPacket) (hs : p.source.length = 4)
    (hd : p.destination.length = 4) :
    (buildIV fo p).drop 12 = (match fo with
      | some f => f.hash.take 4
      | none => [0, 0, 0, 0]) := by
  rw [buildIV.eq_def, List.drop_left' (ivBase_length p hs hd)]

theorem setDataLen_some {p : NetPacket} {n : Nat} (h : n ≤ HEAD_LEN + p.body.length) :
    p.setDataLen n = some { p with dataLen := n } := by
  rw [NetPacket.setDataLen, if_pos h]

theorem ite_tf {α : Sort _} (x y : α) : (if (true = false) then x else y) = y := rfl

set_option maxHeartbeats 1600000 in
theorem encrypt_spec_none (lib : AesLib) (c : AesEcbCipher) (rand : Nat)
    (p : NetPacket) (orig : Nat)
    (hc : c.finger = none)
    (hENC : ∀ b : List Nat, b.length = 16 → (encFun lib c.cipher b).length = 16)
    (hd : p.dataLen = HEAD_LEN + orig)
    (hcap : encM orig ≤ p.body.length) :
    encrypt_ipv4 lib c rand p = ⟨none, encResult lib c rand p orig⟩ := by
  have hpadpos := pkcs7PadLen_pos (orig + 4)
  have hM : encM orig = orig + 4 + pkcs7PadLen (orig + 4) := rfl
  have h12 : HEAD_LEN = 12 := rfl
  have horig4 : orig + 4 ≤ p.body.length := by omega
  have hlen_take : (p.body.take (orig + 4)).length = orig + 4 := by
    rw [List.length_take]; omega
  have hm0len : (p.body.take orig ++ u32be rand).length = orig + 4 := by
    simp [List.length_take, u32be]; omega
  have hsr : setRandom (p.body.take (orig + 4)) false (u32be rand)
      = p.body.take orig ++ u32be rand := by
    unfold setRandom
    rw [show fingerLenOf false = 0 from rfl, hlen_take]
    rw [show orig + 4 - 0 - 4 = orig from by omega]
    rw [List.take_take, show orig ⊓ (orig + 4) = orig from by omega]
    rw [List.drop_eq_nil_of_le (by rw [hlen_take])]
    simp
  have hen : enBody (p.body.take orig ++ u32be rand) false
      = p.body.take orig ++ u32be rand := by
    unfold enBody
    rw [show fingerLenOf false = 0 from rfl, Nat.sub_zero, List.take_length]
  have hbody2len : (p.body.take orig ++ u32be rand ++ p.body.drop (orig + 4)).length
      = p.body.length := by
    simp [List.length_take, u32be, List.length_drop]; omega
  unfold encrypt_ipv4
  rw [hc]
  simp only [Option.isSome_none]
  rw [show (if false = true then 16 else 4 : Nat) = 4 from rfl, hd]
  have hle1 : HEAD_LEN + orig + 4 ≤ HEAD_LEN + p.body.length := by omega
  split
  · next heq =>
    rw [setDataLen_some hle1] at heq
    exact absurd heq (by simp)
  · next p1 heq =>
    rw [setDataLen_some hle1] at heq
    injection heq with h1
    subst h1
    have hpl : ({ p with dataLen := HEAD_LEN + orig + 4 } : NetPacket).payload
        = p.body.take (orig + 4) := by
      simp only [NetPacket.payload]
      congr 1
      omega
    rw [hpl]
    have hsb : secretBodyOk (p.body.take (orig + 4)) false = true := by
      simp [secretBodyOk, fingerLenOf, hlen_take]
    rw [hsb, ite_tf, hsr, hen, hm0len]
    have hG1 : ({ p with dataLen := HEAD_LEN + orig + 4 } : NetPacket).writePayloadBytes
        (p.body.take orig ++ u32be rand)
        = { p with
            dataLen := HEAD_LEN + orig + 4
            body := (p.body.take orig ++ u32be rand) ++ p.body.drop (orig + 4) } := by
      simp only [NetPacket.writePayloadBytes, hm0len]
    rw [hG1]
    have hG2 : ({ p with
        dataLen := HEAD_LEN + orig + 4
        body := (p.body.take orig ++ u32be rand) ++ p.body.drop (orig + 4) } : NetPacket).setDataLenMax
        = { p with
            dataLen := HEAD_LEN + p.body.length
            body := (p.body.take orig ++ u32be rand) ++ p.body.drop (orig + 4) } := by
      simp only [NetPacket.setDataLenMax]
      rw [hbody2len]
    rw [hG2]
    have hp3pl : ({ p with
        dataLen := HEAD_LEN + p.body.length
        body := (p.body.take orig ++ u32be rand) ++ p.body.drop (orig + 4) } : NetPacket).payload
        = (p.body.take orig ++ u32be rand) ++ p.body.drop (orig + 4) := by
      simp only [NetPacket.payload]
      rw [show HEAD_LEN + p.body.length - HEAD_LEN = p.body.length from by omega]
      rw [← hbody2len, List.take_length]
    rw [hp3pl]
    have hEP : encryptPadded (encFun lib c.cipher)
        ((p.body.take orig ++ u32be rand) ++ p.body.drop (orig + 4)) (orig + 4)
        = some (encBuf lib c rand p orig) := by
      unfold encryptPadded
      rw [List.take_left' hm0len]
      rw [if_pos (by rw [pkcs7Pad_length, hm0len, hbody2len]; omega)]
      rfl
    have hmsglen : (encMsg p rand orig).length = orig + 4 := by
      unfold encMsg; exact hm0len
    have hbufLen : (encBuf lib c rand p orig).length = encM orig := by
      unfold encBuf
      have hmod := pkcs7Pad_length_mod (encMsg p rand orig)
      have hk : (pkcs7Pad (encMsg p rand orig)).length
          = 16 * ((pkcs7Pad (encMsg p rand orig)).length / 16) := by omega
      rw [ecbMap_length16 (encFun lib c.cipher) hENC _ _ hk]
      rw [pkcs7Pad_length, hmsglen, hM]
    have hbody4len : (encBuf lib c rand p orig
        ++ ((p.body.take orig ++ u32be rand) ++ p.body.drop (orig + 4)).drop (encM orig)).length
        = p.body.length := by
      rw [List.length_append, hbufLen, List.length_drop, hbody2len]
      omega
    have hG3 : ({ p with
        dataLen := HEAD_LEN + p.body.length
        body := (p.body.take orig ++ u32be rand) ++ p.body.drop (orig + 4) } : NetPacket).writePayloadBytes
          (encBuf lib c rand p orig)
        = { p with
            dataLen := HEAD_LEN + p.body.length
            body := encBuf lib c rand p orig
              ++ ((p.body.take orig ++ u32be rand) ++ p.body.drop (orig + 4)).drop (encM orig) } := by
      simp only [NetPacket.writePayloadBytes, hbufLen]
    have hle2 : HEAD_LEN + encM orig ≤ HEAD_LEN + (encBuf lib c rand p orig
        ++ ((p.body.take orig ++ u32be rand) ++ p.body.drop (orig + 4)).drop (encM orig)).length := by
      rw [hbody4len]; omega
    split
    · next heq =>
      rw [hEP] at heq
      exact absurd heq (by simp)
    · next buf heq =>
      rw [hEP] at heq
      injection heq with hbuf
      subst hbuf
      split
      · next heq2 =>
        rw [hG3, hbufLen, setDataLen_some hle2] at heq2
        exact absurd heq2 (by simp)
      · next p5 heq2 =>
        rw [hG3, hbufLen, setDataLen_some hle2] at heq2
        injection heq2 with h5
        subst h5
        unfold encResult encTag encBody2
        rw [hc]
        simp only [Option.isSome_none]
        rw [show fingerLenOf false = 0 from rfl]
        simp only [Nat.add_zero]
        rw [hsr]
        simp


set_option maxHeartbeats 1600000 in
theorem encrypt_spec_some (lib : AesLib) (c : AesEcbCipher) (f : Finger) (rand : Nat)
    (p : NetPacket) (orig : Nat)
    (hc : c.finger = some f)
    (hWF : ∀ x y, (f.calcFinger x y).length = 12)
    (hENC : ∀ b : List Nat, b.length = 16 → (encFun lib c.cipher b).length = 16)
    (hd : p.dataLen = HEAD_LEN + orig)
    (hcap : encM orig + 12 ≤ p.body.length) :
    encrypt_ipv4 lib c rand p = ⟨none, encResult lib c rand p orig⟩ := by
  have hpadpos := pkcs7PadLen_pos (orig + 4)
  have hM : encM orig = orig + 4 + pkcs7PadLen (orig + 4) := rfl
  have h12 : HEAD_LEN = 12 := rfl
  have horig16 : orig + 16 ≤ p.body.length := by omega
  have hlen_take : (p.body.take (orig + 16)).length = orig + 16 := by
    rw [List.length_take]; omega
  have hm0len : (p.body.take orig ++ u32be rand).length = orig + 4 := by
    simp [List.length_take, u32be]; omega
  have hJlen : ((p.body.take (orig + 16)).drop (orig + 4)).length = 12 := by
    rw [List.length_drop, hlen_take]
    omega
  have hsr : setRandom (p.body.take (orig + 16)) true (u32be rand)
      = (p.body.take orig ++ u32be rand) ++ (p.body.take (orig + 16)).drop (orig + 4) := by
    unfold setRandom
    rw [show fingerLenOf true = 12 from rfl, hlen_take]
    rw [show orig + 16 - 12 - 4 = orig from by omega]
    rw [List.take_take, show orig ⊓ (orig + 16) = orig from by omega]
  have hpl2len : ((p.body.take orig ++ u32be rand) ++ (p.body.take (orig + 16)).drop (orig + 4)).length
      = orig + 16 := by
    rw [List.length_append, hm0len, hJlen]
  have hen : enBody ((p.body.take orig ++ u32be rand) ++ (p.body.take (orig + 16)).drop (orig + 4)) true
      = p.body.take orig ++ u32be rand := by
    unfold enBody
    rw [show fingerLenOf true = 12 from rfl, hpl2len]
    rw [show orig + 16 - 12 = orig + 4 from by omega]
    rw [List.take_left' hm0len]
  have hbody2len : (((p.body.take orig ++ u32be rand) ++ (p.body.take (orig + 16)).drop (orig + 4))
      ++ p.body.drop (orig + 16)).length = p.body.length := by
    rw [List.length_append, hpl2len, List.length_drop]
    omega
  unfold encrypt_ipv4
  rw [hc]
  simp only [Option.isSome_some]
  rw [if_pos trivial, hd]
  have hle1 : HEAD_LEN + orig + 16 ≤ HEAD_LEN + p.body.length := by omega
  split
  · next heq =>
    rw [setDataLen_some hle1] at heq
    exact absurd heq (by simp)
  · next p1 heq =>
    rw [setDataLen_some hle1] at heq
    injection heq with h1
    subst h1
    have hpl : ({ p with dataLen := HEAD_LEN + orig + 16 } : NetPacket).payload
        = p.body.take (orig + 16) := by
      simp only [NetPacket.payload]
      congr 1
      omega
    rw [hpl]
    have hsb : secretBodyOk (p.body.take (orig + 16)) true = true := by
      simp [secretBodyOk, fingerLenOf, hlen_take]
    rw [hsb, ite_tf, hsr, hen, hm0len]
    have hG1 : ({ p with dataLen := HEAD_LEN + orig + 16 } : NetPacket).writePayloadBytes
        ((p.body.take orig ++ u32be rand) ++ (p.body.take (orig + 16)).drop (orig + 4))
        = { p with
            dataLen := HEAD_LEN + orig + 16
            body := ((p.body.take orig ++ u32be rand) ++ (p.body.take (orig + 16)).drop (orig + 4))
              ++ p.body.drop (orig + 16) } := by
      simp only [NetPacket.writePayloadBytes, hpl2len]
    rw [hG1]
    have hG2 : ({ p with
        dataLen := HEAD_LEN + orig + 16
        body := ((p.body.take orig ++ u32be rand) ++ (p.body.take (orig + 16)).drop (orig + 4))
          ++ p.body.drop (orig + 16) } : NetPacket).setDataLenMax
        = { p with
            dataLen := HEAD_LEN + p.body.length
            body := ((p.body.take orig ++ u32be rand) ++ (p.body.take (orig + 16)).drop (orig + 4))
              ++ p.body.drop (orig + 16) } := by
      simp only [NetPacket.setDataLenMax]
      rw [hbody2len]
    rw [hG2]
    have hp3pl : ({ p with
        dataLen := HEAD_LEN + p.body.length
        body := ((p.body.take orig ++ u32be rand) ++ (p.body.take (orig + 16)).drop (orig + 4))
          ++ p.body.drop (orig + 16) } : NetPacket).payload
        = ((p.body.take orig ++ u32be rand) ++ (p.body.take (orig + 16)).drop (orig + 4))
          ++ p.body.drop (orig + 16) := by
      simp only [NetPacket.payload]
      rw [show HEAD_LEN + p.body.length - HEAD_LEN = p.body.length from by omega]
      rw [← hbody2len, List.take_length]
    rw [hp3pl]
    have hm0lenA : ((p.body.take orig ++ u32be rand)
        ++ ((p.body.take (orig + 16)).drop (orig + 4) ++ p.body.drop (orig + 16))).take (orig + 4)
        = p.body.take orig ++ u32be rand := List.take_left' hm0len
    have hEP : encryptPadded (encFun lib c.cipher)
        (((p.body.take orig ++ u32be rand) ++ (p.body.take (orig + 16)).drop (orig + 4))
          ++ p.body.drop (orig + 16)) (orig + 4)
        = some (encBuf lib c rand p orig) := by
      unfold encryptPadded
      rw [List.append_assoc, hm0lenA, ← List.append_assoc]
      rw [if_pos (by rw [pkcs7Pad_length, hm0len, hbody2len]; omega)]
      rfl
    have hmsglen : (encMsg p rand orig).length = orig + 4 := by
      unfold encMsg; exact hm0len
    have hbufLen : (encBuf lib c rand p orig).length = encM orig := by
      unfold encBuf
      have hmod := pkcs7Pad_length_mod (encMsg p rand orig)
      have hk : (pkcs7Pad (encMsg p rand orig)).length
          = 16 * ((pkcs7Pad (encMsg p rand orig)).length / 16) := by omega
      rw [ecbMap_length16 (encFun lib c.cipher) hENC _ _ hk]
      rw [pkcs7Pad_length, hmsglen, hM]
    have hbody4len : (encBuf lib c rand p orig
        ++ (((p.body.take orig ++ u32be rand) ++ (p.body.take (orig + 16)).drop (orig + 4))
          ++ p.body.drop (orig + 16)).drop (encM orig)).length
        = p.body.length := by
      rw [List.length_append, hbufLen, List.length_drop, hbody2len]
      omega
    have hG3 : ({ p with
        dataLen := HEAD_LEN + p.body.length
        body := ((p.body.take orig ++ u32be rand) ++ (p.body.take (orig + 16)).drop (orig + 4))
          ++ p.body.drop (orig + 16) } : NetPacket).writePayloadBytes
          (encBuf lib c rand p orig)
        = { p with
            dataLen := HEAD_LEN + p.body.length
            body := encBuf lib c rand p orig
              ++ (((p.body.take orig ++ u32be rand) ++ (p.body.take (orig + 16)).drop (orig + 4))
                ++ p.body.drop (orig + 16)).drop (encM orig) } := by
      simp only [NetPacket.writePayloadBytes, hbufLen]
    have htag12 : (f.calcFinger ((buildIV (some f) p).take 12) (encBuf lib c rand p orig)).length
        = 12 := hWF _ _
    have hle2 : HEAD_LEN + encM orig + 12 ≤ HEAD_LEN + (encBuf lib c rand p orig
        ++ (((p.body.take orig ++ u32be rand) ++ (p.body.take (orig + 16)).drop (orig + 4))
          ++ p.body.drop (orig + 16)).drop (encM orig)).length := by
      rw [hbody4len]; omega
    split
    · next heq =>
      rw [hEP] at heq
      exact absurd heq (by simp)
    · next buf heq =>
      rw [hEP] at heq
      injection heq with hbuf
      subst hbuf
      rw [hG3, hbufLen, htag12]
      split
      · next heq2 =>
        rw [setDataLen_some hle2] at heq2
        exact absurd heq2 (by simp)
      · next p5 heq2 =>
        rw [setDataLen_some hle2] at heq2
        injection heq2 with h5
        subst h5
        have hencM12 : encM orig + 12 = (encBuf lib c rand p orig).length + 12 := by
          rw [hbufLen]
        have hKlen : (((((p.body.take orig ++ u32be rand)
            ++ (p.body.take (orig + 16)).drop (orig + 4))
            ++ p.body.drop (orig + 16)).drop (encM orig)).take 12).length = 12 := by
          rw [List.length_take, List.length_drop, hbody2len]
          omega
        have hp5pl : ({ p with
            dataLen := HEAD_LEN + encM orig + 12
            body := encBuf lib c rand p orig
              ++ (((p.body.take orig ++ u32be rand) ++ (p.body.take (orig + 16)).drop (orig + 4))
                ++ p.body.drop (orig + 16)).drop (encM orig) } : NetPacket).payload
            = encBuf lib c rand p orig
              ++ ((((p.body.take orig ++ u32be rand) ++ (p.body.take (orig + 16)).drop (orig + 4))
                ++ p.body.drop (orig + 16)).drop (encM orig)).take 12 := by
          simp only [NetPacket.payload]
          rw [show HEAD_LEN + encM orig + 12 - HEAD_LEN = encM orig + 12 from by omega]
          rw [hencM12, List.take_append]
        rw [hp5pl]
        have hsb5 : secretBodyOk (encBuf lib c rand p orig
            ++ ((((p.body.take orig ++ u32be rand) ++ (p.body.take (orig + 16)).drop (orig + 4))
              ++ p.body.drop (orig + 16)).drop (encM orig)).take 12) true = true := by
          simp only [secretBodyOk, List.length_append, hbufLen, hKlen]
          rw [show fingerLenOf true = 12 from rfl]
          simp
          omega
        rw [hsb5, ite_tf]
        have hplen5 : (encBuf lib c rand p orig
            ++ ((((p.body.take orig ++ u32be rand) ++ (p.body.take (orig + 16)).drop (orig + 4))
              ++ p.body.drop (orig + 16)).drop (encM orig)).take 12).length = encM orig + 12 := by
          rw [List.length_append, hbufLen, hKlen]
        have hsf : setFingerBytes (encBuf lib c rand p orig
            ++ ((((p.body.take orig ++ u32be rand) ++ (p.body.take (orig + 16)).drop (orig + 4))
              ++ p.body.drop (orig + 16)).drop (encM orig)).take 12)
            (f.calcFinger ((buildIV (some f) p).take 12) (encBuf lib c rand p orig))
            = encBuf lib c rand p orig
              ++ f.calcFinger ((buildIV (some f) p).take 12) (encBuf lib c rand p orig) := by
          unfold setFingerBytes
          rw [hplen5, show encM orig + 12 - 12 = encM orig from by omega]
          rw [List.take_left' hbufLen]
        rw [hsf]
        have hG4 : ({ p with
            dataLen := HEAD_LEN + encM orig + 12
            body := encBuf lib c rand p orig
              ++ (((p.body.take orig ++ u32be rand) ++ (p.body.take (orig + 16)).drop (orig + 4))
                ++ p.body.drop (orig + 16)).drop (encM orig) } : NetPacket).writePayloadBytes
            (encBuf lib c rand p orig
              ++ f.calcFinger ((buildIV (some f) p).take 12) (encBuf lib c rand p orig))
            = { p with
                dataLen := HEAD_LEN + encM orig + 12
                body := (encBuf lib c rand p orig
                  ++ f.calcFinger ((buildIV (some f) p).take 12) (encBuf lib c rand p orig))
                  ++ ((((p.body.take orig ++ u32be rand)
                    ++ (p.body.take (orig + 16)).drop (orig + 4))
                    ++ p.body.drop (orig + 16)).drop (encM orig)).drop 12 } := by
          simp only [NetPacket.writePayloadBytes, List.length_append, hbufLen, htag12]
          rw [List.drop_append_eq_append_drop, hbufLen]
          rw [show encM orig + 12 - encM orig = 12 from by omega]
          rw [List.drop_eq_nil_of_le (by rw [hbufLen]; omega)]
          simp
        rw [hG4]
        unfold encResult encTag encBody2
        rw [hc]
        simp only [Option.isSome_some]
        rw [show fingerLenOf true = 12 from rfl]
        rw [show orig + 4 + 12 = orig + 16 from by omega]
        rw [hsr]
        rw [List.drop_drop]


set_option maxHeartbeats 1600000 in
theorem decrypt_spec (lib : AesLib) (c : AesEcbCipher) (q : NetPacket)
    (m0 tagv junk : List Nat)
    (hflag : q.encryptFlag = true)
    (hbody : q.body = (ecbMap (encFun lib c.cipher) (pkcs7Pad m0) ++ tagv) ++ junk)
    (hdl : q.dataLen = HEAD_LEN + (pkcs7Pad m0).length + fingerLenOf c.finger.isSome)
    (htaglen : tagv.length = fingerLenOf c.finger.isSome)
    (htagval : ∀ f, c.finger = some f →
      tagv = f.calcFinger ((buildIV c.finger q).take 12)
        (ecbMap (encFun lib c.cipher) (pkcs7Pad m0)))
    (hENC : ∀ b : List Nat, b.length = 16 → (encFun lib c.cipher b).length = 16)
    (hINV : ecbMap (decFun lib c.cipher) (ecbMap (encFun lib c.cipher) (pkcs7Pad m0))
      = pkcs7Pad m0) :
    decrypt_ipv4 lib c q = ⟨none, { q with
      body := pkcs7Pad m0 ++ q.body.drop (pkcs7Pad m0).length
      dataLen := HEAD_LEN + m0.length - 4
      encryptFlag := false }⟩ := by
  have hMmod := pkcs7Pad_length_mod m0
  have hpadlen := pkcs7Pad_length m0
  have hpadpos := pkcs7PadLen_pos m0.length
  have h12 : HEAD_LEN = 12 := rfl
  have hbufLen : (ecbMap (encFun lib c.cipher) (pkcs7Pad m0)).length
      = (pkcs7Pad m0).length :=
    ecbMap_length16 _ hENC ((pkcs7Pad m0).length / 16) _ (by omega)
  have hM16 : 16 ≤ (pkcs7Pad m0).length := by omega
  have hfl : fingerLenOf c.finger.isSome ≤ 12 := by
    unfold fingerLenOf; split <;> omega
  have hpllen : (ecbMap (encFun lib c.cipher) (pkcs7Pad m0) ++ tagv).length
      = (pkcs7Pad m0).length + fingerLenOf c.finger.isSome := by
    rw [List.length_append, hbufLen, htaglen]
  have hqpl : q.payload = ecbMap (encFun lib c.cipher) (pkcs7Pad m0) ++ tagv := by
    unfold NetPacket.payload
    rw [hbody, hdl, show HEAD_LEN + (pkcs7Pad m0).length + fingerLenOf c.finger.isSome
      - HEAD_LEN = (pkcs7Pad m0).length + fingerLenOf c.finger.isSome from by omega]
    exact List.take_left' hpllen
  have hen : enBody (ecbMap (encFun lib c.cipher) (pkcs7Pad m0) ++ tagv) c.finger.isSome
      = ecbMap (encFun lib c.cipher) (pkcs7Pad m0) := by
    unfold enBody
    rw [hpllen, show (pkcs7Pad m0).length + fingerLenOf c.finger.isSome
      - fingerLenOf c.finger.isSome = (pkcs7Pad m0).length from by omega]
    exact List.take_left' hbufLen
  have hsb : secretBodyOk (ecbMap (encFun lib c.cipher) (pkcs7Pad m0) ++ tagv)
      c.finger.isSome = true := by
    simp only [secretBodyOk, hpllen, decide_eq_true_eq]
    omega
  have hDP : decryptPadded (decFun lib c.cipher)
      (ecbMap (encFun lib c.cipher) (pkcs7Pad m0)) = (some m0, pkcs7Pad m0) := by
    simp only [decryptPadded]
    rw [if_pos (by rw [hbufLen]; omega), hINV, pkcs7Unpad_pad]
  have hsd : (HEAD_LEN + m0.length - 4 : Nat) ≤ HEAD_LEN
      + (pkcs7Pad m0 ++ q.body.drop (pkcs7Pad m0).length).length := by
    rw [List.length_append]
    omega
  unfold decrypt_ipv4
  rw [hflag]
  simp only [ite_tf]
  rw [hqpl, hpllen]
  rw [if_neg (by omega)]
  rw [hsb, ite_tf, hen]
  cases hcf : c.finger with
  | none =>
    simp only [hcf]
    rw [ite_tf, hDP]
    simp only [NetPacket.writePayloadBytes]
    rw [setDataLen_some hsd]
  | some f =>
    simp only [hcf]
    have htv := htagval f hcf
    rw [hcf] at htv
    have hfl12 : fingerLenOf (some f : Option Finger).isSome = 12 := rfl
    have hsf : storedFinger (ecbMap (encFun lib c.cipher) (pkcs7Pad m0) ++ tagv) = tagv := by
      unfold storedFinger
      rw [hpllen, hcf, hfl12, Nat.add_sub_cancel]
      exact List.drop_left' hbufLen
    simp only [hsf]
    simp only [← htv]
    rw [if_neg (by simp)]
    rw [hDP]
    simp only [NetPacket.writePayloadBytes]
    rw [setDataLen_some hsd]

theorem good_encFun (lib : AesLib) (hGood : AesLib.Good lib) (e : AesEcbEnum) :
    ∀ b : List Nat, b.length = 16 → (encFun lib e b).length = 16 := by
  intro b hb
  cases e with
  | AES128ECB key => exact ((hGood key).1 b hb).1
  | AES256ECB key => exact ((hGood key).2 b hb).1

theorem good_decFun (lib : AesLib) (hGood : AesLib.Good lib) (e : AesEcbEnum) :
    ∀ b : List Nat, b.length = 16 → (decFun lib e b).length = 16 := by
  intro b hb
  cases e with
  | AES128ECB key => exact ((hGood key).1 b hb).2.1
  | AES256ECB key => exact ((hGood key).2 b hb).2.1

theorem good_invFun (lib : AesLib) (hGood : AesLib.Good lib) (e : AesEcbEnum) :
    ∀ b : List Nat, b.length = 16 →
      (encFun lib e b).length = 16 ∧ decFun lib e (encFun lib e b) = b := by
  intro b hb
  cases e with
  | AES128ECB key => exact ⟨((hGood key).1 b hb).1, ((hGood key).1 b hb).2.2⟩
  | AES256ECB key => exact ⟨((hGood key).2 b hb).1, ((hGood key).2 b hb).2.2⟩

theorem encrypt_spec (lib : AesLib) (c : AesEcbCipher) (rand : Nat)
    (p : NetPacket) (orig : Nat)
    (hWF : FingerOptWF c.finger)
    (hENC : ∀ b : List Nat, b.length = 16 → (encFun lib c.cipher b).length = 16)
    (hd : p.dataLen = HEAD_LEN + orig)
    (hcap : encM orig + fingerLenOf c.finger.isSome ≤ p.body.length) :
    encrypt_ipv4 lib c rand p = ⟨none, encResult lib c rand p orig⟩ := by
  cases hcf : c.finger with
  | none =>
    refine encrypt_spec_none lib c rand p orig hcf hENC hd ?_
    rw [hcf] at hcap
    simpa using hcap
  | some f =>
    have hWFf : ∀ x y, (f.calcFinger x y).length = 12 := by
      rw [hcf] at hWF; exact hWF
    refine encrypt_spec_some lib c f rand p orig hcf hWFf hENC hd ?_
    rw [hcf] at hcap
    simpa using hcap

set_option maxHeartbeats 1600000 in
/-- C2: for every key variant, with fingerprinting enabled or disabled, and
every payload length from 1 up (with sufficient spare buffer capacity),
decrypt of encrypt restores the packet: every header field and payload byte
is restored, the declared length is restored, and the encrypted flag is
false again.  The block cipher is abstract: any length-preserving
block-cipher pair whose decryption inverts encryption (`AesLib.Good`). -/
theorem C2_round_trip (lib : AesLib) (c : AesEcbCipher) (rand : Nat)
    (p : NetPacket) (orig : Nat)
    (hGood : AesLib.Good lib)
    (hWF : FingerOptWF c.finger)
    (hflag : p.encryptFlag = false)
    (hd : p.dataLen = HEAD_LEN + orig)
    (horig : 1 ≤ orig)
    (hcap : encM orig + fingerLenOf c.finger.isSome ≤ p.body.length) :
    (encrypt_ipv4 lib c rand p).err = none ∧
    (decrypt_ipv4 lib c (encrypt_ipv4 lib c rand p).packet).err = none ∧
    (decrypt_ipv4 lib c (encrypt_ipv4 lib c rand p).packet).packet.payload = p.payload ∧
    (decrypt_ipv4 lib c (encrypt_ipv4 lib c rand p).packet).packet.dataLen = p.dataLen ∧
    (decrypt_ipv4 lib c (encrypt_ipv4 lib c rand p).packet).packet.encryptFlag = false ∧
    (decrypt_ipv4 lib c (encrypt_ipv4 lib c rand p).packet).packet.source = p.source ∧
    (decrypt_ipv4 lib c (encrypt_ipv4 lib c rand p).packet).packet.destination
      = p.destination ∧
    (decrypt_ipv4 lib c (encrypt_ipv4 lib c rand p).packet).packet.protocol = p.protocol ∧
    (decrypt_ipv4 lib c (encrypt_ipv4 lib c rand p).packet).packet.transport_protocol
      = p.transport_protocol ∧
    (decrypt_ipv4 lib c (encrypt_ipv4 lib c rand p).packet).packet.is_gateway
      = p.is_gateway ∧
    (decrypt_ipv4 lib c (encrypt_ipv4 lib c rand p).packet).packet.source_ttl
      = p.source_ttl := by
  have hENC := good_encFun lib hGood c.cipher
  have hpadpos := pkcs7PadLen_pos (orig + 4)
  have hM : encM orig = orig + 4 + pkcs7PadLen (orig + 4) := rfl
  have h12 : HEAD_LEN = 12 := rfl
  have hflge : fingerLenOf c.finger.isSome ≤ 12 := by
    unfold fingerLenOf; split <;> omega
  have horigle : orig + 4 ≤ p.body.length := by omega
  have hmsglen : (encMsg p rand orig).length = orig + 4 := by
    simp [encMsg, List.length_take, u32be]; omega
  have hE := encrypt_spec lib c rand p orig hWF hENC hd hcap
  have hmod := pkcs7Pad_length_mod (encMsg p rand orig)
  have hINV : ecbMap (decFun lib c.cipher)
      (ecbMap (encFun lib c.cipher) (pkcs7Pad (encMsg p rand orig)))
      = pkcs7Pad (encMsg p rand orig) :=
    ecbMap_inv _ _ (good_invFun lib hGood c.cipher)
      ((pkcs7Pad (encMsg p rand orig)).length / 16) _ (by omega)
  have htaglen : (encTag lib c rand p orig).length = fingerLenOf c.finger.isSome := by
    cases hcf : c.finger with
    | none => simp [encTag, hcf, fingerLenOf]
    | some f =>
      have hWFf : ∀ x y, (f.calcFinger x y).length = 12 := by
        rw [hcf] at hWF; exact hWF
      simp [encTag, hcf, fingerLenOf, hWFf]
  have htagval : ∀ g, c.finger = some g →
      encTag lib c rand p orig = g.calcFinger
        ((buildIV c.finger (encResult lib c rand p orig)).take 12)
        (ecbMap (encFun lib c.cipher) (pkcs7Pad (encMsg p rand orig))) := by
    intro g hg
    simp only [encTag, hg]
    rfl
  have hD := decrypt_spec lib c (encResult lib c rand p orig)
    (encMsg p rand orig) (encTag lib c rand p orig)
    ((encBody2 p c.finger.isSome (u32be rand) orig).drop
      (encM orig + fingerLenOf c.finger.isSome))
    rfl rfl (by rw [pkcs7Pad_length, hmsglen]; rfl) htaglen htagval hENC hINV
  rw [hE]
  simp only [hD]
  refine ⟨trivial, trivial, ?_, ?_, trivial, rfl, rfl, rfl, rfl, rfl, rfl⟩
  · simp only [NetPacket.payload, pkcs7Pad_length, hmsglen, hd]
    rw [show HEAD_LEN + (orig + 4) - 4 - HEAD_LEN = orig from by omega]
    rw [show HEAD_LEN + orig - HEAD_LEN = orig from by omega]
    rw [pkcs7Pad, List.append_assoc]
    rw [List.take_append_eq_append_take]
    rw [show orig - (encMsg p rand orig).length = 0 from by omega]
    rw [List.take_zero, List.append_nil]
    unfold encMsg
    rw [List.take_append_eq_append_take]
    rw [show orig - (p.body.take orig).length = 0 from by rw [List.length_take]; omega]
    rw [List.take_zero, List.append_nil, List.take_take]
    rw [show orig ⊓ orig = orig from by omega]
  · rw [hmsglen, hd]
    omega

theorem decrypt_flag_false (lib : AesLib) (c : AesEcbCipher) (p : NetPacket)
    (hf : p.encryptFlag = false) :
    decrypt_ipv4 lib c p = ⟨some .notEncrypted, p⟩ := by
  unfold decrypt_ipv4
  rw [hf, if_pos rfl]

theorem decrypt_short (lib : AesLib) (c : AesEcbCipher) (p : NetPacket)
    (hf : p.encryptFlag = true) (hlen : p.payload.length < 16) :
    decrypt_ipv4 lib c p = ⟨some .malformedPacket, p⟩ := by
  unfold decrypt_ipv4
  rw [hf]
  simp only [ite_tf]
  rw [if_pos hlen]

theorem decrypt_integrity_fail (lib : AesLib) (c : AesEcbCipher) (f : Finger)
    (p : NetPacket)
    (hc : c.finger = some f)
    (hf : p.encryptFlag = true)
    (hlen : ¬ p.payload.length < 16)
    (hmis : f.calcFinger ((buildIV c.finger p).take 12)
        (enBody p.payload c.finger.isSome) ≠ storedFinger p.payload) :
    decrypt_ipv4 lib c p = ⟨some .integrityFailure, p⟩ := by
  have hsb : secretBodyOk p.payload c.finger.isSome = true := by
    simp only [secretBodyOk, decide_eq_true_eq]
    rw [hc]
    rw [show fingerLenOf (some f : Option Finger).isSome = 12 from rfl]
    omega
  rw [hc] at hmis
  unfold decrypt_ipv4
  rw [hf]
  simp only [ite_tf]
  rw [if_neg hlen, hsb]
  simp only [ite_tf, hc]
  rw [if_pos (decide_eq_false hmis)]

theorem pkcs7Unpad_eq_some {l m : List Nat} (h : pkcs7Unpad l = some m) :
    m.length ≤ l.length ∧ m = l.take m.length := by
  unfold pkcs7Unpad at h
  split at h
  · cases h
  · next n heq =>
    split at h
    · next hcond =>
      injection h with hm
      subst hm
      constructor
      · rw [List.length_take]; omega
      · rw [List.length_take]
        rw [show (l.length - n) ⊓ l.length = l.length - n from by omega]
    · cases h

set_option maxHeartbeats 1600000 in
/-- C5: on every successful decrypt, if the unpadded plaintext produced by
the block-cipher transform has length `L` (`m.length`), the packet's
declared length becomes header + `L` - 4, the encrypted flag is cleared,
and the resulting payload is the plaintext without its final 4 nonce bytes,
which are never exposed. -/
theorem C5_decrypt_success (lib : AesLib) (c : AesEcbCipher) (p : NetPacket)
    (m db : List Nat)
    (hDP : decryptPadded (decFun lib c.cipher) (enBody p.payload c.finger.isSome)
      = (some m, db))
    (herr : (decrypt_ipv4 lib c p).err = none) :
    (decrypt_ipv4 lib c p).packet.dataLen = HEAD_LEN + m.length - 4 ∧
    (decrypt_ipv4 lib c p).packet.encryptFlag = false ∧
    (decrypt_ipv4 lib c p).packet.payload = m.take (m.length - 4) := by
  have h12 : HEAD_LEN = 12 := rfl
  have hub : pkcs7Unpad db = some m := by
    unfold decryptPadded at hDP
    split at hDP
    · have h1 := congrArg Prod.fst hDP
      have h2 := congrArg Prod.snd hDP
      simp only at h1 h2
      rw [← h2]
      exact h1
    · have h1 := congrArg Prod.fst hDP
      simp only at h1
      cases h1
  obtain ⟨hml, hmt⟩ := pkcs7Unpad_eq_some hub
  unfold decrypt_ipv4 at herr ⊢
  simp only [hDP, NetPacket.writePayloadBytes] at herr ⊢
  split at herr
  · simp at herr
  · next hnf =>
    split at herr
    · simp at herr
    · next hnlen =>
      split at herr
      · simp at herr
      · next hnsb =>
        split at herr
        · simp at herr
        · next hnpass =>
          split at herr
          · simp at herr
          · next p3 heq =>
            rw [if_neg hnf, if_neg hnlen, if_neg hnsb, if_neg hnpass]
            simp only [heq]
            rw [NetPacket.setDataLen] at heq
            split at heq
            · next hcap =>
              injection heq with h3
              subst h3
              refine ⟨rfl, rfl, ?_⟩
              simp only [NetPacket.payload]
              rw [show HEAD_LEN + m.length - 4 - HEAD_LEN = m.length - 4 from by omega]
              rw [List.take_append_eq_append_take]
              rw [show m.length - 4 - db.length = 0 from by omega]
              rw [List.take_zero, List.append_nil]
              nth_rewrite 3 [hmt]
              rw [List.take_take, show (m.length - 4) ⊓ m.length = m.length - 4 from by omega]
            · cases heq

theorem decryptPadded_fst_some {d : List Nat → List Nat} {buf m : List Nat}
    (h : (decryptPadded d buf).1 = some m) :
    pkcs7Unpad (decryptPadded d buf).2 = some m
      ∧ m.length ≤ (decryptPadded d buf).2.length := by
  by_cases h16 : buf.length % 16 = 0
  · simp only [decryptPadded, if_pos h16] at h ⊢
    exact ⟨h, (pkcs7Unpad_eq_some h).1⟩
  · simp [decryptPadded, if_neg h16] at h

set_option maxHeartbeats 1600000 in
/-- C8 (amended): whenever decrypt returns an error, the packet's encrypted
flag, declared length and every header field are unchanged; for every error
other than `decryptFailure` the packet is entirely unchanged.  A
`decryptFailure` (invalid padding) is raised only after the in-place block
decryption, so the encryption-region bytes may then differ from entry. -/
theorem C8_amended (lib : AesLib) (c : AesEcbCipher) (p : NetPacket) (e : CipherErr)
    (herr : (decrypt_ipv4 lib c p).err = some e) :
    (decrypt_ipv4 lib c p).packet.encryptFlag = p.encryptFlag ∧
    (decrypt_ipv4 lib c p).packet.dataLen = p.dataLen ∧
    (decrypt_ipv4 lib c p).packet.source = p.source ∧
    (decrypt_ipv4 lib c p).packet.destination = p.destination ∧
    (decrypt_ipv4 lib c p).packet.protocol = p.protocol ∧
    (decrypt_ipv4 lib c p).packet.transport_protocol = p.transport_protocol ∧
    (decrypt_ipv4 lib c p).packet.is_gateway = p.is_gateway ∧
    (decrypt_ipv4 lib c p).packet.source_ttl = p.source_ttl ∧
    (e ≠ CipherErr.decryptFailure → (decrypt_ipv4 lib c p).packet = p) := by
  have h12 : HEAD_LEN = 12 := rfl
  unfold decrypt_ipv4 at herr ⊢
  simp only [NetPacket.writePayloadBytes] at herr ⊢
  split at herr
  · next hf =>
    rw [if_pos hf]
    exact ⟨rfl, rfl, rfl, rfl, rfl, rfl, rfl, rfl, fun _ => rfl⟩
  · next hnf =>
    split at herr
    · next hlen =>
      rw [if_neg hnf, if_pos hlen]
      exact ⟨rfl, rfl, rfl, rfl, rfl, rfl, rfl, rfl, fun _ => rfl⟩
    · next hnlen =>
      split at herr
      · next hsbF =>
        rw [if_neg hnf, if_neg hnlen, if_pos hsbF]
        exact ⟨rfl, rfl, rfl, rfl, rfl, rfl, rfl, rfl, fun _ => rfl⟩
      · next hnsb =>
        split at herr
        · next hpassF =>
          rw [if_neg hnf, if_neg hnlen, if_neg hnsb, if_pos hpassF]
          exact ⟨rfl, rfl, rfl, rfl, rfl, rfl, rfl, rfl, fun _ => rfl⟩
        · next hnpass =>
          split at herr
          · next heqN =>
            rw [if_neg hnf, if_neg hnlen, if_neg hnsb, if_neg hnpass]
            refine ⟨rfl, rfl, rfl, rfl, rfl, rfl, rfl, rfl, ?_⟩
            intro hne
            exfalso
            apply hne
            have h' : some CipherErr.decryptFailure = some e := herr
            injection h' with h''
            exact h''.symm
          · next m heqS =>
            split at herr
            · next heq2 =>
              exfalso
              obtain ⟨hub2, hml2⟩ := decryptPadded_fst_some heqS
              rw [NetPacket.setDataLen] at heq2
              split at heq2
              · cases heq2
              · next hcap =>
                apply hcap
                simp only [List.length_append, List.length_drop]
                omega
            · next p3 heq2 =>
              simp only at herr
              cases herr

theorem idLib_good : AesLib.Good idLib := by
  intro key
  constructor <;> intro b hb <;> exact ⟨hb, hb, rfl⟩

theorem fingerConst_wf : FingerOptWF (some fingerConst) := by
  intro x y
  rfl

theorem encM_roundUp16 (orig : Nat) : encM orig = roundUp16 (orig + 4 + 1) := by
  unfold encM roundUp16 pkcs7PadLen
  omega

/-- C3: when a fingerprint function is configured, decrypt compares the
keyed fingerprint of the 12-byte context prefix and the encryption region
with the stored tag, and on mismatch fails with `integrityFailure` while
leaving the packet completely unchanged — the block cipher is never
consulted. -/
theorem C3_integrity_mismatch (lib : AesLib) (c : AesEcbCipher) (f : Finger)
    (p : NetPacket)
    (hc : c.finger = some f)
    (hf : p.encryptFlag = true)
    (hlen : ¬ p.payload.length < 16)
    (hmis : f.calcFinger ((buildIV c.finger p).take 12)
        (enBody p.payload c.finger.isSome) ≠ storedFinger p.payload) :
    decrypt_ipv4 lib c p = ⟨some CipherErr.integrityFailure, p⟩ :=
  decrypt_integrity_fail lib c f p hc hf hlen hmis

/-- C6: decrypt of a packet that is marked encrypted but whose payload is
shorter than 16 bytes fails with `malformedPacket` and returns the packet
unchanged — no fingerprint computation, secret-body construction or
block-cipher call has any observable effect. -/
theorem C6_short_packet (lib : AesLib) (c : AesEcbCipher) (p : NetPacket)
    (hf : p.encryptFlag = true) (hlen : p.payload.length < 16) :
    decrypt_ipv4 lib c p = ⟨some CipherErr.malformedPacket, p⟩ :=
  decrypt_short lib c p hf hlen

/-- C7: decrypt of a packet whose encrypted flag is false fails with
`notEncrypted` and returns the packet unchanged in every field. -/
theorem C7_not_encrypted (lib : AesLib) (c : AesEcbCipher) (p : NetPacket)
    (hf : p.encryptFlag = false) :
    decrypt_ipv4 lib c p = ⟨some CipherErr.notEncrypted, p⟩ :=
  decrypt_flag_false lib c p hf

/-- C1 (counterexample): the claim as stated is false.  With a fingerprint
whose keyed function echoes the context prefix and whose stored hash starts
with four zero bytes, the last 4 bytes of the context vector built by the
code (`finger.hash[0..4]`, a per-key constant) differ from the keyed output
computed over the first 12 bytes of the vector. -/
theorem C1_counterexample : ¬ C1Claim := by
  intro h
  have := h ⟨.AES128ECB [], some fingerEcho⟩ fingerEcho (basePacket false [] HEAD_LEN)
    rfl (by decide) (by decide)
  revert this
  decide

/-- C1 (amended): when fingerprinting is enabled, the last 4 bytes of the
16-byte context vector that both encrypt and decrypt build (`buildIV`) are
the first 4 bytes of the fingerprint's fixed stored hash — a per-key
constant, identical for every packet and on both sides — not a value
computed over the first 12 bytes of the vector. -/
theorem C1_amended (c : AesEcbCipher) (f : Finger) (p q : NetPacket)
    (hc : c.finger = some f)
    (hps : p.source.length = 4) (hpd : p.destination.length = 4)
    (hqs : q.source.length = 4) (hqd : q.destination.length = 4) :
    (buildIV c.finger p).drop 12 = f.hash.take 4 ∧
    (buildIV c.finger p).drop 12 = (buildIV c.finger q).drop 12 := by
  rw [hc]
  rw [buildIV_drop12 _ _ hps hpd, buildIV_drop12 _ _ hqs hqd]
  exact ⟨rfl, rfl⟩

/-- C8 (counterexample): the claim as stated is false.  With a block
decryption that maps every block to zero bytes, decrypt of an all-ones
16-byte region fails the padding check with `decryptFailure`, yet the
encryption region has been block-decrypted in place, so the returned packet
differs from the input. -/
theorem C8_counterexample : ¬ C8Claim := by
  intro h
  have := h zeroDecLib ⟨.AES128ECB [], none⟩ (basePacket true (List.replicate 16 1) 28)
    CipherErr.decryptFailure (by decide)
  revert this
  decide

set_option maxHeartbeats 800000 in
/-- C4: on every successful encrypt of a packet with original payload
length `orig`, the ciphertext (the prefix of the resulting body) has length
`roundUp16 (orig + 4 + 1)` — a positive multiple of 16 strictly larger than
`orig + 4` — and the final declared length is header + ciphertext + 12 when
fingerprinting is enabled and header + ciphertext otherwise
(`fingerLenOf`). -/
theorem C4_encrypt_length (lib : AesLib) (c : AesEcbCipher) (rand : Nat)
    (p : NetPacket) (orig : Nat)
    (hGood : AesLib.Good lib)
    (hWF : FingerOptWF c.finger)
    (hd : p.dataLen = HEAD_LEN + orig)
    (hcap : encM orig + fingerLenOf c.finger.isSome ≤ p.body.length) :
    (encrypt_ipv4 lib c rand p).err = none ∧
    (encBuf lib c rand p orig).length = roundUp16 (orig + 4 + 1) ∧
    (encrypt_ipv4 lib c rand p).packet.body.take (roundUp16 (orig + 4 + 1))
      = encBuf lib c rand p orig ∧
    (encrypt_ipv4 lib c rand p).packet.dataLen
      = HEAD_LEN + roundUp16 (orig + 4 + 1) + fingerLenOf c.finger.isSome ∧
    roundUp16 (orig + 4 + 1) % 16 = 0 ∧
    orig + 4 < roundUp16 (orig + 4 + 1) := by
  have hENC := good_encFun lib hGood c.cipher
  have hpadpos := pkcs7PadLen_pos (orig + 4)
  have hpadle := pkcs7PadLen_le (orig + 4)
  have hM : encM orig = orig + 4 + pkcs7PadLen (orig + 4) := rfl
  have hR := encM_roundUp16 orig
  have hE := encrypt_spec lib c rand p orig hWF hENC hd hcap
  have hmsglen : (encMsg p rand orig).length = orig + 4 := by
    simp [encMsg, List.length_take, u32be]
    omega
  have hbufLen : (encBuf lib c rand p orig).length = encM orig := by
    unfold encBuf
    have hmod := pkcs7Pad_length_mod (encMsg p rand orig)
    have hk : (pkcs7Pad (encMsg p rand orig)).length
        = 16 * ((pkcs7Pad (encMsg p rand orig)).length / 16) := by omega
    rw [ecbMap_length16 (encFun lib c.cipher) hENC _ _ hk]
    rw [pkcs7Pad_length, hmsglen, hM]
  refine ⟨by rw [hE], by rw [hbufLen, hR], ?_, by rw [hE]; rw [← hR]; rfl,
    by rw [← hR, hM]; unfold pkcs7PadLen; omega, by rw [← hR, hM]; omega⟩
  rw [hE]
  show (encBuf lib c rand p orig ++ encTag lib c rand p orig ++ _).take _ = _
  rw [List.append_assoc, ← hR]
  exact List.take_left' (by rw [hbufLen])

set_option maxHeartbeats 800000 in
/-- C9: encrypt never reads the packet's encrypted flag: with sufficient
spare capacity, encrypting a packet whose flag is already true succeeds,
produces exactly the same result as for the same packet with the flag
false (the full transformation runs again over the existing bytes), and
leaves the flag set to true. -/
theorem C9_encrypt_ignores_flag (lib : AesLib) (c : AesEcbCipher) (rand : Nat)
    (p : NetPacket) (orig : Nat)
    (hGood : AesLib.Good lib)
    (hWF : FingerOptWF c.finger)
    (hd : p.dataLen = HEAD_LEN + orig)
    (hcap : encM orig + fingerLenOf c.finger.isSome ≤ p.body.length) :
    encrypt_ipv4 lib c rand { p with encryptFlag := true }
      = encrypt_ipv4 lib c rand { p with encryptFlag := false } ∧
    (encrypt_ipv4 lib c rand { p with encryptFlag := true }).err = none ∧
    (encrypt_ipv4 lib c rand { p with encryptFlag := true }).packet.encryptFlag = true := by
  have hENC := good_encFun lib hGood c.cipher
  have hE1 := encrypt_spec lib c rand { p with encryptFlag := true } orig hWF hENC hd hcap
  have hE0 := encrypt_spec lib c rand { p with encryptFlag := false } orig hWF hENC hd hcap
  have hres : encResult lib c rand { p with encryptFlag := true } orig
      = encResult lib c rand { p with encryptFlag := false } orig := rfl
  refine ⟨?_, by rw [hE1], ?_⟩
  · rw [hE1, hE0, hres]
  · rw [hE1]
    rfl

set_option maxHeartbeats 800000 in
/-- C10: bytes 12..16 of the context vector never influence any observable
output: two ciphers differing only in the stored fingerprint hash (the sole
source of those bytes), with identical keyed functions, produce identical
results for both decrypt and encrypt (with equal nonce) on every packet —
only the first 12 bytes are ever read, and the block cipher takes no
initialization value. -/
theorem C10_iv_tail_irrelevant (lib : AesLib) (ce : AesEcbEnum)
    (calcF : List Nat → List Nat → List Nat) (h1 h2 : List Nat)
    (p : NetPacket) (rand : Nat)
    (hs : p.source.length = 4) (hd : p.destination.length = 4) :
    decrypt_ipv4 lib ⟨ce, some ⟨h1, calcF⟩⟩ p
      = decrypt_ipv4 lib ⟨ce, some ⟨h2, calcF⟩⟩ p ∧
    encrypt_ipv4 lib ⟨ce, some ⟨h1, calcF⟩⟩ rand p
      = encrypt_ipv4 lib ⟨ce, some ⟨h2, calcF⟩⟩ rand p := by
  constructor
  · unfold decrypt_ipv4
    simp only [Option.isSome_some]
    rw [buildIV_take12 (some ⟨h1, calcF⟩) p hs hd,
      buildIV_take12 (some ⟨h2, calcF⟩) p hs hd]
  · unfold encrypt_ipv4
    simp only [Option.isSome_some]
    rw [buildIV_take12 (some ⟨h1, calcF⟩) p hs hd,
      buildIV_take12 (some ⟨h2, calcF⟩) p hs hd]

theorem C2_round_trip_witness :
    AesLib.Good idLib ∧
    (decrypt_ipv4 idLib ⟨.AES128ECB (List.replicate 16 0), none⟩
      (encrypt_ipv4 idLib ⟨.AES128ECB (List.replicate 16 0), none⟩ 16909060
        (basePacket false ([104, 101, 108, 108, 111] ++ List.replicate 27 0) 17)).packet).err
      = none ∧
    (decrypt_ipv4 idLib ⟨.AES128ECB (List.replicate 16 0), none⟩
      (encrypt_ipv4 idLib ⟨.AES128ECB (List.replicate 16 0), none⟩ 16909060
        (basePacket false ([104, 101, 108, 108, 111] ++ List.replicate 27 0) 17)).packet).packet.payload
      = (basePacket false ([104, 101, 108, 108, 111] ++ List.replicate 27 0) 17).payload := by
  have h := C2_round_trip idLib ⟨.AES128ECB (List.replicate 16 0), none⟩ 16909060
    (basePacket false ([104, 101, 108, 108, 111] ++ List.replicate 27 0) 17) 5
    idLib_good trivial rfl rfl (by decide) (by decide)
  exact ⟨idLib_good, h.2.1, h.2.2.1⟩

theorem C3_integrity_mismatch_witness :
    fingerConst.calcFinger
        ((buildIV (some fingerConst) (basePacket true (List.replicate 28 5) 40)).take 12)
        (enBody (basePacket true (List.replicate 28 5) 40).payload true)
      ≠ storedFinger (basePacket true (List.replicate 28 5) 40).payload ∧
    decrypt_ipv4 idLib ⟨.AES128ECB [], some fingerConst⟩
        (basePacket true (List.replicate 28 5) 40)
      = ⟨some CipherErr.integrityFailure, basePacket true (List.replicate 28 5) 40⟩ :=
  ⟨by decide, C3_integrity_mismatch idLib ⟨.AES128ECB [], some fingerConst⟩ fingerConst
    (basePacket true (List.replicate 28 5) 40) rfl rfl (by decide) (by decide)⟩

theorem C4_encrypt_length_witness :
    AesLib.Good idLib ∧
    (encrypt_ipv4 idLib ⟨.AES128ECB (List.replicate 16 0), none⟩ 16909060
      (basePacket false ([104, 101, 108, 108, 111] ++ List.replicate 27 0) 17)).err = none ∧
    (encrypt_ipv4 idLib ⟨.AES128ECB (List.replicate 16 0), none⟩ 16909060
      (basePacket false ([104, 101, 108, 108, 111] ++ List.replicate 27 0) 17)).packet.dataLen
      = HEAD_LEN + roundUp16 (5 + 4 + 1) + fingerLenOf false := by
  have h := C4_encrypt_length idLib ⟨.AES128ECB (List.replicate 16 0), none⟩ 16909060
    (basePacket false ([104, 101, 108, 108, 111] ++ List.replicate 27 0) 17) 5
    idLib_good trivial rfl (by decide)
  exact ⟨idLib_good, h.1, h.2.2.2.1⟩

theorem C5_decrypt_success_witness :
    decryptPadded (decFun idLib (AesEcbEnum.AES128ECB []))
        (enBody (basePacket true (List.replicate 12 7 ++ [4, 4, 4, 4]) 28).payload false)
      = (some (List.replicate 12 7), List.replicate 12 7 ++ [4, 4, 4, 4]) ∧
    (decrypt_ipv4 idLib ⟨.AES128ECB [], none⟩
      (basePacket true (List.replicate 12 7 ++ [4, 4, 4, 4]) 28)).packet.dataLen
      = HEAD_LEN + (List.replicate 12 7 : List Nat).length - 4 ∧
    (decrypt_ipv4 idLib ⟨.AES128ECB [], none⟩
      (basePacket true (List.replicate 12 7 ++ [4, 4, 4, 4]) 28)).packet.payload
      = (List.replicate 12 7 : List Nat).take ((List.replicate 12 7 : List Nat).length - 4) := by
  have h := C5_decrypt_success idLib ⟨.AES128ECB [], none⟩
    (basePacket true (List.replicate 12 7 ++ [4, 4, 4, 4]) 28)
    (List.replicate 12 7) (List.replicate 12 7 ++ [4, 4, 4, 4]) (by decide) (by decide)
  exact ⟨by decide, h.1, h.2.2⟩

theorem C6_short_packet_witness :
    (basePacket true (List.replicate 8 1) 20).payload.length < 16 ∧
    decrypt_ipv4 idLib ⟨.AES128ECB [], none⟩ (basePacket true (List.replicate 8 1) 20)
      = ⟨some CipherErr.malformedPacket, basePacket true (List.replicate 8 1) 20⟩ :=
  ⟨by decide, C6_short_packet idLib ⟨.AES128ECB [], none⟩
    (basePacket true (List.replicate 8 1) 20) rfl (by decide)⟩

theorem C7_not_encrypted_witness :
    (basePacket false [] 12).encryptFlag = false ∧
    decrypt_ipv4 idLib ⟨.AES128ECB [], none⟩ (basePacket false [] 12)
      = ⟨some CipherErr.notEncrypted, basePacket false [] 12⟩ :=
  ⟨rfl, C7_not_encrypted idLib ⟨.AES128ECB [], none⟩ (basePacket false [] 12) rfl⟩

theorem C8_amended_witness :
    (decrypt_ipv4 idLib ⟨.AES128ECB [], none⟩ (basePacket false [] 12)).err
      = some CipherErr.notEncrypted ∧
    (decrypt_ipv4 idLib ⟨.AES128ECB [], none⟩ (basePacket false [] 12)).packet.encryptFlag
      = (basePacket false [] 12).encryptFlag :=
  ⟨by decide, (C8_amended idLib ⟨.AES128ECB [], none⟩ (basePacket false [] 12)
    CipherErr.notEncrypted (by decide)).1⟩

theorem C9_encrypt_ignores_flag_witness :
    AesLib.Good idLib ∧
    encrypt_ipv4 idLib ⟨.AES128ECB (List.replicate 16 0), none⟩ 16909060
        { basePacket false ([104, 101, 108, 108, 111] ++ List.replicate 27 0) 17 with
          encryptFlag := true }
      = encrypt_ipv4 idLib ⟨.AES128ECB (List.replicate 16 0), none⟩ 16909060
        { basePacket false ([104, 101, 108, 108, 111] ++ List.replicate 27 0) 17 with
          encryptFlag := false } ∧
    (encrypt_ipv4 idLib ⟨.AES128ECB (List.replicate 16 0), none⟩ 16909060
        { basePacket false ([104, 101, 108, 108, 111] ++ List.replicate 27 0) 17 with
          encryptFlag := true }).packet.encryptFlag = true := by
  have h := C9_encrypt_ignores_flag idLib ⟨.AES128ECB (List.replicate 16 0), none⟩ 16909060
    (basePacket false ([104, 101, 108, 108, 111] ++ List.replicate 27 0) 17) 5
    idLib_good trivial rfl (by decide)
  exact ⟨idLib_good, h.1, h.2.2⟩

theorem C10_iv_tail_irrelevant_witness :
    (basePacket true (List.replicate 16 0) 28).source.length = 4 ∧
    decrypt_ipv4 idLib ⟨.AES128ECB [], some ⟨[1, 1, 1, 1], fun pre _ => pre⟩⟩
        (basePacket true (List.replicate 16 0) 28)
      = decrypt_ipv4 idLib ⟨.AES128ECB [], some ⟨[2, 2, 2, 2], fun pre _ => pre⟩⟩
        (basePacket true (List.replicate 16 0) 28) :=
  ⟨by decide, (C10_iv_tail_irrelevant idLib (.AES128ECB []) (fun pre _ => pre)
    [1, 1, 1, 1] [2, 2, 2, 2] (basePacket true (List.replicate 16 0) 28) 7
    (by decide) (by decide)).1⟩

theorem C1_amended_witness :
    (⟨.AES128ECB [], some fingerEcho⟩ : AesEcbCipher).finger = some fingerEcho ∧
    (buildIV (some fingerEcho) (basePacket false [] 12)).drop 12
      = fingerEcho.hash.take 4 ∧
    (buildIV (some fingerEcho) (basePacket false [] 12)).drop 12
      = (buildIV (some fingerEcho) (basePacket true (List.replicate 3 9) 13)).drop 12 := by
  have h := C1_amended ⟨.AES128ECB [], some fingerEcho⟩ fingerEcho
    (basePacket false [] 12) (basePacket true (List.replicate 3 9) 13)
    rfl (by decide) (by decide) (by decide) (by decide)
  exact ⟨rfl, h.1, h.2⟩
